import Mathlib

/-!
# Verification of the idempotent structural source-editing engine

This file embeds `src/fastapi_crud_generator/codemods.py` — the three
libcst-based structural mutators (`_RouterTransformer`,
`_DepsTransformer`, `_ModelExportTransformer`) and their driver entry
points (`ensure_router_registered`, `ensure_repository_dependency`,
`ensure_model_export`) — and proves/refutes the specification's claims
about them.

The concrete syntax tree is modelled per the specification's data model
(§3): a module is an ordered sequence of top-level statement nodes and
blank-line trivia units, exactly the representation over which the
repository's transformers compute (they count, pop and insert
`cst.EmptyLine` items in the module body list).  The third-party parser
itself is out of the repository; the drivers take it as a parameter
(spec §4.1: `parse` fails with a `SyntaxError` kind on invalid text).
-/

namespace Codemod

/-- Assignment target (`cst.AssignTarget.target`): a plain `cst.Name` or
anything else. -/
inductive Target where
  | name (s : String)
  | unknown (txt : String)

/-- An element of a list/tuple literal (`cst.Element`).  A string
element carries its evaluated value, a double-quote flag, and the trivia
text that follows it (comma and whitespace, as written in the source).
Non-string elements are opaque. -/
inductive Elem where
  | str (dq : Bool) (v : String) (sep : String)
  | unknown (txt : String) (sep : String)

/-- The right-hand side of an assignment: a `cst.List`/`cst.Tuple`
(with the trivia following the opening bracket) or an opaque
expression. -/
inductive AValue where
  | coll (isTuple : Bool) (openWs : String) (elems : List Elem)
  | unknown (txt : String)

/-- A call argument's value: a plain `cst.Name` or anything else. -/
inductive ArgV where
  | name (s : String)
  | unknown (txt : String)

/-- A call's function expression.  `dotted s` is an expression for which
`get_full_name_for_node` returns the dotted name `s`; `unknown` is one
for which it returns `None`. -/
inductive CallFunc where
  | dotted (s : String)
  | unknown (txt : String)

/-- A small statement inside a `cst.SimpleStatementLine`. -/
inductive Small where
  | importFrom (module : String) (names : List (String × Option String))
  | importPlain (module : String)
  | exprCall (func : CallFunc) (args : List ArgV)
  | assign (targets : List Target) (value : AValue)
  | unknown (txt : String)

/-- A top-level (or block-level) node of the module body: a simple
statement line (with optional trailing comment), a function definition,
a class definition, or a blank-line trivia unit (spec §3,
`EmptyLineTrivia`). -/
inductive Node where
  | stmtLine (body : List Small) (comment : Option String)
  | funcDef (name : String) (sig : String) (body : List Node)
  | classDef (name : String) (sig : String) (body : List Node)
  | emptyLine

/-- `RouterSpec` dataclass (codemods.py lines 11-17). -/
structure RouterSpec where
  module_name : String
  import_module : String
  import_name : String
  aliasName : String  -- `alias` in the Python dataclass (reserved word in Lean)
  app_name : String := "app"

/-- `DepsSpec` dataclass (codemods.py lines 97-103). -/
structure DepsSpec where
  module_name : String
  model_name : String
  import_module : String
  import_name : String
  func_name : String

/-- `ModelExportSpec` dataclass (codemods.py lines 187-190). -/
structure ModelExportSpec where
  module_name : String
  model_name : String

/-- Spec construction in `ensure_router_registered` (lines 82-88). -/
def mkRouterSpec (module_name : String) (app_name : String) : RouterSpec :=
  { module_name := module_name
    import_module := "src.api." ++ module_name ++ ".routes"
    import_name := "router"
    aliasName := module_name ++ "_router"
    app_name := app_name }

/-- Spec construction in `ensure_repository_dependency` (lines 172-178). -/
def mkDepsSpec (module_name : String) (model_name : String) : DepsSpec :=
  { module_name := module_name
    model_name := model_name
    import_module := "src.db.repositories." ++ module_name
    import_name := model_name ++ "Repository"
    func_name := "get_" ++ module_name ++ "_repository" }

/-! ## Re-serialization (`Module.code`) -/

/-- Single-quote character, as produced by Python `repr` on a plain
string. -/
def sq : String := "\x27"

def quoteStr (dq : Bool) (v : String) : String :=
  if dq then "\x22" ++ v ++ "\x22" else sq ++ v ++ sq

def renderAlias : String × Option String → String
  | (n, none) => n
  | (n, some a) => n ++ " as " ++ a

def renderAliases : List (String × Option String) → String
  | [] => ""
  | [x] => renderAlias x
  | x :: r => renderAlias x ++ ", " ++ renderAliases (r)

def renderElem : Elem → String
  | .str dq v sep => quoteStr dq v ++ sep
  | .unknown txt sep => txt ++ sep

def renderElems : List Elem → String
  | [] => ""
  | x :: r => renderElem x ++ renderElems r

def renderAValue : AValue → String
  | .coll isTuple openWs elems =>
      (if isTuple then "(" else "[") ++ openWs ++ renderElems elems
        ++ (if isTuple then ")" else "]")
  | .unknown txt => txt

def renderTarget : Target → String
  | .name s => s
  | .unknown txt => txt

def renderTargets : List Target → String
  | [] => ""
  | t :: r => renderTarget t ++ " = " ++ renderTargets r

def renderCallFunc : CallFunc → String
  | .dotted s => s
  | .unknown txt => txt

def renderArg : ArgV → String
  | .name s => s
  | .unknown txt => txt

def renderArgs : List ArgV → String
  | [] => ""
  | [x] => renderArg x
  | x :: r => renderArg x ++ ", " ++ renderArgs r

def renderSmall : Small → String
  | .importFrom m names => "from " ++ m ++ " import " ++ renderAliases names
  | .importPlain m => "import " ++ m
  | .exprCall f args => renderCallFunc f ++ "(" ++ renderArgs args ++ ")"
  | .assign ts v => renderTargets ts ++ renderAValue v
  | .unknown txt => txt

def renderSmalls : List Small → String
  | [] => ""
  | [x] => renderSmall x
  | x :: r => renderSmall x ++ "; " ++ renderSmalls r

def renderComment : Option String → String
  | none => ""
  | some c => "  # " ++ c

mutual

def renderNode (ind : String) : Node → String
  | .stmtLine body c => ind ++ renderSmalls body ++ renderComment c ++ "\n"
  | .funcDef n sig b => ind ++ "def " ++ n ++ sig ++ ":\n" ++ renderNodes (ind ++ "    ") b
  | .classDef n sig b => ind ++ "class " ++ n ++ sig ++ ":\n" ++ renderNodes (ind ++ "    ") b
  | .emptyLine => "\n"

def renderNodes (ind : String) : List Node → String
  | [] => ""
  | n :: r => renderNode ind n ++ renderNodes ind r

end

/-- `Module.code`: re-serialize the module body. -/
def render (t : List Node) : String := renderNodes "" t

/-! ## Shape predicates -/

/-- Is this small statement a `cst.Import` or `cst.ImportFrom`? -/
def smallIsImport : Small → Bool
  | .importFrom _ _ => true
  | .importPlain _ => true
  | _ => false

/-- `isinstance(stmt, SimpleStatementLine) and any(isinstance(s, (Import,
ImportFrom)) for s in stmt.body)` — the shared insertion-point test. -/
def isImportLine : Node → Bool
  | .stmtLine b _ => b.any smallIsImport
  | _ => false

def isEmptyLine : Node → Bool
  | .emptyLine => true
  | _ => false

/-- The `__all__`-assignment test of `_ModelExportTransformer`:
exactly one small statement, an `Assign` with a single target that is
the `Name` `__all__`. -/
def isAllAssign : List Small → Bool
  | [.assign [.name t] _] => t == "__all__"
  | _ => false

def isAllLine : Node → Bool
  | .stmtLine b _ => isAllAssign b
  | _ => false

def elemName : Elem → Option String
  | .str _ v _ => some v
  | .unknown _ _ => none

/-- The string values read out of a matched `__all__` assignment
(`visit_SimpleStatementLine`, lines 217-223): only `Element`s whose
value is a `SimpleString` contribute. -/
def extractNames : List Small → List String
  | [.assign [.name _] (.coll _ _ elems)] => elems.filterMap elemName
  | _ => []

/-! ## Deep traversal (the CST visitor visits nodes at every depth) -/

mutual

def nodeDeepAny (f : Node → Bool) : Node → Bool
  | .stmtLine b c => f (.stmtLine b c)
  | .funcDef n s b => f (.funcDef n s b) || nodesDeepAny f b
  | .classDef n s b => f (.classDef n s b) || nodesDeepAny f b
  | .emptyLine => f .emptyLine

def nodesDeepAny (f : Node → Bool) : List Node → Bool
  | [] => false
  | n :: r => nodeDeepAny f n || nodesDeepAny f r

end

/-- `_RouterTransformer.visit_ImportFrom` (lines 27-36): module path
equal, imported name equal, and alias absent or equal to the expected
alias. -/
def routerImportHere (spec : RouterSpec) : Node → Bool
  | .stmtLine b _ => b.any fun s =>
      match s with
      | .importFrom m names =>
          m == spec.import_module &&
            names.any (fun p => p.1 == spec.import_name &&
              (p.2 == none || p.2 == some spec.aliasName))
      | _ => false
  | _ => false

def routerSeenImport (spec : RouterSpec) (t : List Node) : Bool :=
  nodesDeepAny (routerImportHere spec) t

/-- `_RouterTransformer.visit_SimpleStatementLine` (lines 38-52): an
expression statement calling `<app>.include_router` whose first argument
is the `Name` equal to the derived alias. -/
def routerIncludeHere (spec : RouterSpec) : Node → Bool
  | .stmtLine b _ => b.any fun s =>
      match s with
      | .exprCall f args =>
          (match f with
           | .dotted fn => fn == spec.app_name ++ ".include_router"
           | .unknown _ => false) &&
          (match args with
           | .name v :: _ => v == spec.aliasName
           | _ => false)
      | _ => false
  | _ => false

def routerSeenInclude (spec : RouterSpec) (t : List Node) : Bool :=
  nodesDeepAny (routerIncludeHere spec) t

/-- `_DepsTransformer.visit_ImportFrom` (lines 113-119): module path
and imported name only; the alias is ignored. -/
def depsImportHere (spec : DepsSpec) : Node → Bool
  | .stmtLine b _ => b.any fun s =>
      match s with
      | .importFrom m names =>
          m == spec.import_module && names.any (fun p => p.1 == spec.import_name)
      | _ => false
  | _ => false

def depsSeenImport (spec : DepsSpec) (t : List Node) : Bool :=
  nodesDeepAny (depsImportHere spec) t

/-- `_DepsTransformer.visit_FunctionDef` (lines 121-123): match by
name only. -/
def depsFuncHere (spec : DepsSpec) : Node → Bool
  | .funcDef n _ _ => n == spec.func_name
  | _ => false

def depsSeenFunc (spec : DepsSpec) (t : List Node) : Bool :=
  nodesDeepAny (depsFuncHere spec) t

/-- `_ModelExportTransformer.visit_ImportFrom` (lines 201-207). -/
def exportImportHere (spec : ModelExportSpec) : Node → Bool
  | .stmtLine b _ => b.any fun s =>
      match s with
      | .importFrom m names =>
          m == "src.db.models." ++ spec.module_name &&
            names.any (fun p => p.1 == spec.model_name)
      | _ => false
  | _ => false

def exportSeenImport (spec : ModelExportSpec) (t : List Node) : Bool :=
  nodesDeepAny (exportImportHere spec) t

/-! ## The `current_all_names` accumulator

`_ModelExportTransformer.visit_SimpleStatementLine` overwrites
`self.current_all_names` on every `__all__` assignment it visits, in
document order; the final value is the one from the last such
assignment. -/

mutual

def nodeLastAll (acc : List String) : Node → List String
  | .stmtLine b _ => if isAllAssign b then extractNames b else acc
  | .funcDef _ _ b => nodesLastAll acc b
  | .classDef _ _ b => nodesLastAll acc b
  | .emptyLine => acc

def nodesLastAll (acc : List String) : List Node → List String
  | [] => acc
  | n :: r => nodesLastAll (nodeLastAll acc n) r

end

/-! ## Insertion-point policy -/

/-- Split the body after the last top-level import line: the loop
`for i, stmt in enumerate(new_body): if <import line>: insert_index = i + 1`
inserts at `insert_index`, i.e. between these two pieces.  The second
component is the maximal suffix containing no import line. -/
def splitAtLastImport (t : List Node) : List Node × List Node :=
  ((t.reverse.dropWhile (fun n => !isImportLine n)).reverse,
   (t.reverse.takeWhile (fun n => !isImportLine n)).reverse)

/-- `new_body.insert(insert_index, stmt)` with `insert_index` computed
as above (used by all three transformers). -/
def insertAfterLastImport (s : Node) (t : List Node) : List Node :=
  (splitAtLastImport t).1 ++ s :: (splitAtLastImport t).2

/-- Count of trailing `EmptyLine` units (`_DepsTransformer.leave_Module`
lines 149-154). -/
def trailingBlanks (t : List Node) : Nat :=
  (t.reverse.takeWhile isEmptyLine).length

/-- Remove the trailing run of `EmptyLine` units (the
`while ... body.pop(j)` loops of `_ModelExportTransformer.leave_Module`). -/
def stripTrailingEmpty (t : List Node) : List Node :=
  (t.reverse.dropWhile isEmptyLine).reverse

/-! ## The three transformers -/

/-- The statement parsed from
`f"from {import_module} import {import_name} as {alias}  # noqa: E402\n"`
(line 58-60). -/
def routerImportStmt (spec : RouterSpec) : Node :=
  .stmtLine [.importFrom spec.import_module [(spec.import_name, some spec.aliasName)]]
    (some "noqa: E402")

/-- The statement parsed from `f"{app_name}.include_router({alias})\n"`
(line 69). -/
def routerIncludeStmt (spec : RouterSpec) : Node :=
  .stmtLine [.exprCall (.dotted (spec.app_name ++ ".include_router")) [.name spec.aliasName]]
    none

/-- `_RouterTransformer.leave_Module` (lines 54-72). -/
def routerTransform (spec : RouterSpec) (t : List Node) : List Node :=
  let b1 := if routerSeenImport spec t then t
            else insertAfterLastImport (routerImportStmt spec) t
  if routerSeenInclude spec t then b1 else b1 ++ [routerIncludeStmt spec]

/-- The statement parsed from
`f"from {import_module} import {import_name}\n"` (line 130). -/
def depsImportStmt (spec : DepsSpec) : Node :=
  .stmtLine [.importFrom spec.import_module [(spec.import_name, none)]] none

/-- The function statement parsed from `func_src` (lines 141-147). -/
def depsFuncStmt (spec : DepsSpec) : Node :=
  .funcDef spec.func_name
    ("(\n    storage: AbstractSQLAlchemyStorage = Depends(get_storage),\n) -> "
      ++ spec.import_name)
    [.stmtLine [.unknown ("return " ++ spec.import_name ++ "(storage)")] none]

/-- `_DepsTransformer.leave_Module` (lines 125-162): insert the import
if missing, then append the function if missing, padding the trailing
blank-line run up to two units (`needed = max(0, 2 - trailing_blanks)`,
which is natural subtraction). -/
def depsTransform (spec : DepsSpec) (t : List Node) : List Node :=
  let b1 := if depsSeenImport spec t then t
            else insertAfterLastImport (depsImportStmt spec) t
  if depsSeenFunc spec t then b1
  else b1 ++ List.replicate (2 - trailingBlanks b1) Node.emptyLine ++ [depsFuncStmt spec]

/-- The import built directly from nodes in
`_ModelExportTransformer.leave_Module` (lines 230-234). -/
def exportImportStmt (spec : ModelExportSpec) : Node :=
  .stmtLine [.importFrom ("src.db.models." ++ spec.module_name) [(spec.model_name, none)]]
    none

/-- `if "Base" not in names: names.insert(0, "Base")` (lines 254-255). -/
def addBase (names : List String) : List String :=
  if names.contains "Base" then names else "Base" :: names

/-- `if model_name not in names: names.append(model_name)` (lines 256-257). -/
def addModel (spec : ModelExportSpec) (names : List String) : List String :=
  if names.contains spec.model_name then names else names ++ [spec.model_name]

/-- Elements of the canonical rebuilt `__all__` list: one per line,
single-quoted, every one comma-terminated, the last followed by the
newline before the closing bracket (`build_all_stmt`, lines 259-263). -/
def canonElems : List String → List Elem
  | [] => []
  | [n] => [.str false n ",\n"]
  | n :: r => .str false n (",\n    ") :: canonElems r

/-- The statement parsed from
`"__all__ = [\n    " + ",\n    ".join(repr(n) for n in names) + ",\n]\n"`. -/
def buildAllStmt (names : List String) : Node :=
  .stmtLine [.assign [.name "__all__"] (.coll false "\n    " (canonElems names))] none

/-- The body surgery of `_ModelExportTransformer.leave_Module`
(lines 243-300), after the import handling.  `names0` is the rebuilt
name list used when no top-level `__all__` exists
(`names = []` at line 253, then sentinel/model added); `names1` is the
one used when the first top-level `__all__` is found
(`names = current_all_names[:]`, then sentinel/model added).  The
replace branch pops the run of `EmptyLine` units directly before the
located statement and re-inserts exactly one (lines 285-298); the
insert branch places the canonical statement after the last import,
dropping the `EmptyLine` run at the insertion point and inserting
exactly one (lines 267-284). -/
def exportBodyTransform (names0 names1 : List String) (body : List Node) : List Node :=
  match body.dropWhile (fun n => !isAllLine n) with
  | _ :: rest =>
      stripTrailingEmpty (body.takeWhile (fun n => !isAllLine n))
        ++ Node.emptyLine :: buildAllStmt names1 :: rest
  | [] =>
      (splitAtLastImport body).1
        ++ Node.emptyLine :: buildAllStmt names0
        :: (splitAtLastImport body).2.dropWhile isEmptyLine

/-- `_ModelExportTransformer.leave_Module` (lines 225-300).  The
detector flags and `current_all_names` come from the visit phase over
the original tree; the body is then adjusted: import inserted if
missing, then the `__all__` surgery of `exportBodyTransform`. -/
def exportTransform (spec : ModelExportSpec) (t : List Node) : List Node :=
  exportBodyTransform (addModel spec (addBase []))
    (addModel spec (addBase (nodesLastAll [] t)))
    (if exportSeenImport spec t then t
     else insertAfterLastImport (exportImportStmt spec) t)

/-! ## Driver entry points

The parser is the third-party lossless parser (spec §4.1); the drivers
are parametric in it.  Each driver returns the outcome together with
the resulting on-disk content: on a parse error nothing is written and
the original text is returned unchanged. -/

/-- `ensure_router_registered` (lines 75-94). -/
def ensure_router_registered (parse : String → Except String (List Node))
    (text : String) (module_name : String) (app_name : String) :
    Except String Bool × String :=
  match parse text with
  | .error e => (.error e, text)
  | .ok mod =>
      let out := render (routerTransform (mkRouterSpec module_name app_name) mod)
      if out == text then (.ok false, text) else (.ok true, out)

/-- `ensure_repository_dependency` (lines 165-184). -/
def ensure_repository_dependency (parse : String → Except String (List Node))
    (text : String) (module_name : String) (model_name : String) :
    Except String Bool × String :=
  match parse text with
  | .error e => (.error e, text)
  | .ok mod =>
      let out := render (depsTransform (mkDepsSpec module_name model_name) mod)
      if out == text then (.ok false, text) else (.ok true, out)

/-- `ensure_model_export` (lines 303-314). -/
def ensure_model_export (parse : String → Except String (List Node))
    (text : String) (module_name : String) (model_name : String) :
    Except String Bool × String :=
  match parse text with
  | .error e => (.error e, text)
  | .ok mod =>
      let out := render (exportTransform ⟨module_name, model_name⟩ mod)
      if out == text then (.ok false, text) else (.ok true, out)

/-! ## Generic list lemmas -/

theorem headDropWhileFalse {α} {p : α → Bool} :
    ∀ {l : List α} {a : α} {r : List α}, l.dropWhile p = a :: r → p a = false := by
  intro l
  induction l with
  | nil => intro a r h; simp at h
  | cons x xs ih =>
      intro a r h
      rw [List.dropWhile_cons] at h
      split at h
      · exact ih h
      · cases h
        simp_all

theorem dropWhileAppendAll {α} (p : α → Bool) (l1 l2 : List α)
    (h : ∀ x ∈ l1, p x = true) : (l1 ++ l2).dropWhile p = l2.dropWhile p := by
  induction l1 with
  | nil => simp
  | cons x xs ih =>
      have hx : p x = true := h x (by simp)
      simp only [List.cons_append, List.dropWhile_cons, hx, if_pos]
      exact ih (fun y hy => h y (by simp [hy]))

theorem takeWhileAppendAll {α} (p : α → Bool) (l1 l2 : List α)
    (h : ∀ x ∈ l1, p x = true) : (l1 ++ l2).takeWhile p = l1 ++ l2.takeWhile p := by
  induction l1 with
  | nil => simp
  | cons x xs ih =>
      have hx : p x = true := h x (by simp)
      simp only [List.cons_append, List.takeWhile_cons, hx, if_pos]
      rw [ih (fun y hy => h y (by simp [hy]))]

/-! ## Insertion-point lemmas -/

theorem splitAtLastImport_append (t : List Node) :
    (splitAtLastImport t).1 ++ (splitAtLastImport t).2 = t := by
  unfold splitAtLastImport
  rw [← List.reverse_append, List.takeWhile_append_dropWhile, List.reverse_reverse]

theorem splitAtLastImport_snd_noImport (t : List Node) :
    ∀ x ∈ (splitAtLastImport t).2, isImportLine x = false := by
  intro x hx
  unfold splitAtLastImport at hx
  simp only [List.mem_reverse] at hx
  have := List.mem_takeWhile_imp hx
  simpa using this

theorem splitAtLastImport_fst_last (t : List Node) :
    (splitAtLastImport t).1 = [] ∨
      ∃ z, (splitAtLastImport t).1.getLast? = some z ∧ isImportLine z = true := by
  unfold splitAtLastImport
  cases h : t.reverse.dropWhile (fun n => !isImportLine n) with
  | nil => left; simp [h]
  | cons a r =>
      right
      refine ⟨a, ?_, ?_⟩
      · simp [h]
      · have := headDropWhileFalse h
        simpa using this

theorem insertAfterLastImport_eq (s : Node) (t : List Node) :
    insertAfterLastImport s t = (splitAtLastImport t).1 ++ s :: (splitAtLastImport t).2 := rfl

/-! ## Trailing-blank lemmas -/

theorem isEmptyLine_iff (n : Node) : isEmptyLine n = true ↔ n = Node.emptyLine := by
  cases n <;> simp [isEmptyLine]

theorem strip_append_replicate (t : List Node) :
    stripTrailingEmpty t ++ List.replicate (trailingBlanks t) Node.emptyLine = t := by
  unfold stripTrailingEmpty trailingBlanks
  have hrep : t.reverse.takeWhile isEmptyLine =
      List.replicate (t.reverse.takeWhile isEmptyLine).length Node.emptyLine := by
    rw [List.eq_replicate_length]
    intro b hb
    exact (isEmptyLine_iff b).mp (List.mem_takeWhile_imp hb)
  have hrev : (t.reverse.takeWhile isEmptyLine).reverse =
      t.reverse.takeWhile isEmptyLine := by
    conv_lhs => rw [hrep]
    rw [List.reverse_replicate]
    exact hrep.symm
  rw [← hrep, ← hrev, ← List.reverse_append, List.takeWhile_append_dropWhile,
    List.reverse_reverse]

theorem strip_getLast_not_empty (t : List Node) :
    ∀ z, (stripTrailingEmpty t).getLast? = some z → isEmptyLine z = false := by
  intro z hz
  unfold stripTrailingEmpty at hz
  rw [List.getLast?_reverse] at hz
  cases h : t.reverse.dropWhile isEmptyLine with
  | nil => rw [h] at hz; simp at hz
  | cons a r =>
      rw [h] at hz
      simp only [List.head?_cons, Option.some.injEq] at hz
      subst hz
      exact headDropWhileFalse h

theorem strip_append_emptyLine (l : List Node) :
    stripTrailingEmpty (l ++ [Node.emptyLine]) = stripTrailingEmpty l := by
  unfold stripTrailingEmpty
  simp [List.dropWhile_cons, isEmptyLine]

theorem strip_of_getLast_not_empty (l : List Node)
    (h : ∀ z, l.getLast? = some z → isEmptyLine z = false) : stripTrailingEmpty l = l := by
  unfold stripTrailingEmpty
  cases hc : l.reverse.dropWhile isEmptyLine with
  | nil =>
      have : ∀ x ∈ l.reverse, isEmptyLine x = true := List.dropWhile_eq_nil_iff.mp hc
      cases hl : l.reverse with
      | nil => simpa using congrArg List.reverse hl
      | cons a r =>
          exfalso
          have ha : isEmptyLine a = true := this a (by rw [hl]; simp)
          have : l.getLast? = some a := by
            rw [← List.head?_reverse]
            rw [hl]
            rfl
          rw [h a this] at ha
          cases ha
  | cons a r =>
      have hl : l.reverse = a :: r := by
        have hhead : isEmptyLine a = false := headDropWhileFalse hc
        cases hl : l.reverse with
        | nil => rw [hl] at hc; simp at hc
        | cons b s =>
            rw [hl] at hc
            rw [List.dropWhile_cons] at hc
            split at hc
            · exfalso
              rename_i hb
              have hbl : l.getLast? = some b := by
                rw [← List.head?_reverse, hl]; rfl
              rw [h b hbl] at hb
              cases hb
            · exact hc
      rw [← hc, hl]
      rw [List.dropWhile_cons]
      have hhead : isEmptyLine a = false := headDropWhileFalse hc
      rw [hhead]
      simp only [Bool.false_eq_true, if_false]
      rw [← hl, List.reverse_reverse]

theorem strip_strip (l : List Node) :
    stripTrailingEmpty (stripTrailingEmpty l) = stripTrailingEmpty l :=
  strip_of_getLast_not_empty _ (strip_getLast_not_empty l)

theorem strip_strip_append_empty (l : List Node) :
    stripTrailingEmpty (stripTrailingEmpty l ++ [Node.emptyLine]) = stripTrailingEmpty l := by
  rw [strip_append_emptyLine, strip_strip]

theorem mem_strip {l : List Node} {x : Node} (hx : x ∈ stripTrailingEmpty l) : x ∈ l := by
  unfold stripTrailingEmpty at hx
  rw [List.mem_reverse] at hx
  have : x ∈ l.reverse := (List.dropWhile_sublist isEmptyLine).mem hx
  rwa [List.mem_reverse] at this

/-! ## Deep-traversal lemmas -/

theorem nodesDeepAny_eq_any (f : Node → Bool) (t : List Node) :
    nodesDeepAny f t = t.any (nodeDeepAny f) := by
  induction t with
  | nil => rfl
  | cons n r ih => simp [nodesDeepAny, ih]

theorem nodesDeepAny_append (f : Node → Bool) (l1 l2 : List Node) :
    nodesDeepAny f (l1 ++ l2) = (nodesDeepAny f l1 || nodesDeepAny f l2) := by
  simp [nodesDeepAny_eq_any]

theorem nodesDeepAny_of_mem {f : Node → Bool} {t : List Node} {x : Node}
    (hx : x ∈ t) (hfx : nodeDeepAny f x = true) : nodesDeepAny f t = true := by
  rw [nodesDeepAny_eq_any, List.any_eq_true]
  exact ⟨x, hx, hfx⟩

theorem nodesDeepAny_insert (f : Node → Bool) (s : Node) (t : List Node) :
    nodesDeepAny f (insertAfterLastImport s t) = (nodeDeepAny f s || nodesDeepAny f t) := by
  rw [insertAfterLastImport_eq]
  rw [nodesDeepAny_append]
  rw [show nodesDeepAny f (s :: (splitAtLastImport t).2)
        = (nodeDeepAny f s || nodesDeepAny f (splitAtLastImport t).2) from rfl]
  conv_rhs => rw [← splitAtLastImport_append t, nodesDeepAny_append]
  cases nodeDeepAny f s <;> cases nodesDeepAny f (splitAtLastImport t).1 <;>
    cases nodesDeepAny f (splitAtLastImport t).2 <;> rfl

theorem nodeDeepAny_emptyLine_false {f : Node → Bool} (h : f Node.emptyLine = false) :
    nodeDeepAny f Node.emptyLine = false := h

theorem nodesDeepAny_replicate_empty (f : Node → Bool) (k : Nat)
    (h : f Node.emptyLine = false) :
    nodesDeepAny f (List.replicate k Node.emptyLine) = false := by
  induction k with
  | zero => rfl
  | succ m ih => simpa [nodesDeepAny, nodeDeepAny, h] using ih

/-! ## `current_all_names` lemmas -/

theorem nodesLastAll_append (acc : List String) (l1 l2 : List Node) :
    nodesLastAll acc (l1 ++ l2) = nodesLastAll (nodesLastAll acc l1) l2 := by
  induction l1 generalizing acc with
  | nil => rfl
  | cons n r ih => simp [nodesLastAll, ih]

mutual

theorem nodeLastAll_of_free (acc : List String) (n : Node)
    (h : nodeDeepAny isAllLine n = false) : nodeLastAll acc n = acc := by
  cases n with
  | stmtLine b c =>
      have : isAllAssign b = false := by simpa [nodeDeepAny, isAllLine] using h
      simp [nodeLastAll, this]
  | funcDef nm sg b =>
      have : nodesDeepAny isAllLine b = false := by
        have h' := h
        rw [show nodeDeepAny isAllLine (Node.funcDef nm sg b)
              = (isAllLine (Node.funcDef nm sg b) || nodesDeepAny isAllLine b) from rfl] at h'
        simpa [isAllLine] using h'
      exact nodesLastAll_of_free acc b this
  | classDef nm sg b =>
      have : nodesDeepAny isAllLine b = false := by
        have h' := h
        rw [show nodeDeepAny isAllLine (Node.classDef nm sg b)
              = (isAllLine (Node.classDef nm sg b) || nodesDeepAny isAllLine b) from rfl] at h'
        simpa [isAllLine] using h'
      exact nodesLastAll_of_free acc b this
  | emptyLine => rfl

theorem nodesLastAll_of_free (acc : List String) (b : List Node)
    (h : nodesDeepAny isAllLine b = false) : nodesLastAll acc b = acc := by
  cases b with
  | nil => rfl
  | cons n r =>
      have hn : nodeDeepAny isAllLine n = false := by
        have h' := h
        rw [show nodesDeepAny isAllLine (n :: r)
              = (nodeDeepAny isAllLine n || nodesDeepAny isAllLine r) from rfl] at h'
        exact (Bool.or_eq_false_iff.mp h').1
      have hr : nodesDeepAny isAllLine r = false := by
        have h' := h
        rw [show nodesDeepAny isAllLine (n :: r)
              = (nodeDeepAny isAllLine n || nodesDeepAny isAllLine r) from rfl] at h'
        exact (Bool.or_eq_false_iff.mp h').2
      rw [show nodesLastAll acc (n :: r) = nodesLastAll (nodeLastAll acc n) r from rfl]
      rw [nodeLastAll_of_free acc n hn]
      exact nodesLastAll_of_free acc r hr

end

/-! ## Canonical `__all__` statement lemmas -/

theorem canonElems_names (l : List String) : (canonElems l).filterMap elemName = l := by
  induction l with
  | nil => rfl
  | cons n r ih =>
      cases r with
      | nil => rfl
      | cons m s => simpa [canonElems, elemName] using ih

theorem isAllLine_buildAllStmt (names : List String) :
    isAllLine (buildAllStmt names) = true := by
  simp [isAllLine, buildAllStmt, isAllAssign]

theorem extractNames_buildAllStmt (names : List String) :
    extractNames [Small.assign [Target.name "__all__"]
      (AValue.coll false "\n    " (canonElems names))] = names := by
  simp [extractNames, canonElems_names]

theorem nodeLastAll_buildAllStmt (acc : List String) (names : List String) :
    nodeLastAll acc (buildAllStmt names) = names := by
  simp [buildAllStmt, nodeLastAll, isAllAssign, extractNames, canonElems_names]

/-- Adding the sentinel and the model name is idempotent once both are
present. -/
theorem addBase_addModel_idem (spec : ModelExportSpec) (l : List String) :
    addModel spec (addBase (addModel spec (addBase l))) = addModel spec (addBase l) := by
  by_cases h1 : "Base" ∈ l <;> by_cases h2 : spec.model_name ∈ l
  · simp [addBase, addModel, h1, h2]
  · simp [addBase, addModel, h1, h2]
  · simp [addBase, addModel, h1, h2]
  · by_cases h3 : spec.model_name = "Base"
    · simp [addBase, addModel, h1, h2, h3]
    · simp [addBase, addModel, h1, h2, h3]

/-! ## Router mutator: detector stability and idempotence -/

theorem routerImportHere_stmt (spec : RouterSpec) :
    routerImportHere spec (routerImportStmt spec) = true := by
  simp [routerImportHere, routerImportStmt]

theorem routerIncludeHere_stmt (spec : RouterSpec) :
    routerIncludeHere spec (routerIncludeStmt spec) = true := by
  simp [routerIncludeHere, routerIncludeStmt]

theorem nodeDeepAny_stmtLine (f : Node → Bool) (b : List Small) (c : Option String) :
    nodeDeepAny f (.stmtLine b c) = f (.stmtLine b c) := rfl

theorem nodesDeepAny_singleton (f : Node → Bool) (x : Node) :
    nodesDeepAny f [x] = nodeDeepAny f x := by
  rw [show nodesDeepAny f [x] = (nodeDeepAny f x || nodesDeepAny f []) from rfl]
  simp [nodesDeepAny]

/-- If the router import is already seen, or was just inserted, it is
seen in the transformed module. -/
theorem routerTransform_seenImport (spec : RouterSpec) (t : List Node) :
    routerSeenImport spec (routerTransform spec t) = true := by
  have himp : nodeDeepAny (routerImportHere spec) (routerImportStmt spec) = true :=
    routerImportHere_stmt spec
  unfold routerTransform
  by_cases hsi : routerSeenImport spec t = true
  · rw [if_pos hsi]
    by_cases hsc : routerSeenInclude spec t = true
    · rw [if_pos hsc]; exact hsi
    · rw [if_neg hsc]
      unfold routerSeenImport at hsi ⊢
      rw [nodesDeepAny_append, hsi]
      rfl
  · rw [if_neg hsi]
    by_cases hsc : routerSeenInclude spec t = true
    · rw [if_pos hsc]
      unfold routerSeenImport
      rw [nodesDeepAny_insert, himp]
      rfl
    · rw [if_neg hsc]
      unfold routerSeenImport
      rw [nodesDeepAny_append, nodesDeepAny_insert, himp]
      rfl

theorem routerTransform_seenInclude (spec : RouterSpec) (t : List Node) :
    routerSeenInclude spec (routerTransform spec t) = true := by
  have hinc : nodeDeepAny (routerIncludeHere spec) (routerIncludeStmt spec) = true :=
    routerIncludeHere_stmt spec
  unfold routerTransform
  by_cases hsc : routerSeenInclude spec t = true
  · rw [if_pos hsc]
    by_cases hsi : routerSeenImport spec t = true
    · rw [if_pos hsi]; exact hsc
    · rw [if_neg hsi]
      unfold routerSeenInclude at hsc ⊢
      rw [nodesDeepAny_insert, hsc]
      simp
  · rw [if_neg hsc]
    by_cases hsi : routerSeenImport spec t = true
    · rw [if_pos hsi]
      unfold routerSeenInclude
      rw [nodesDeepAny_append, nodesDeepAny_singleton, hinc]
      simp
    · rw [if_neg hsi]
      unfold routerSeenInclude
      rw [nodesDeepAny_append, nodesDeepAny_singleton, hinc]
      simp

/-- When both router patterns are present, `leave_Module` leaves the
body unchanged (codemods.py lines 54-72). -/
theorem routerTransform_noop (spec : RouterSpec) (t : List Node)
    (h1 : routerSeenImport spec t = true) (h2 : routerSeenInclude spec t = true) :
    routerTransform spec t = t := by
  unfold routerTransform
  rw [if_pos h1, if_pos h2]

theorem routerTransform_idem (spec : RouterSpec) (t : List Node) :
    routerTransform spec (routerTransform spec t) = routerTransform spec t :=
  routerTransform_noop spec (routerTransform spec t)
    (routerTransform_seenImport spec t) (routerTransform_seenInclude spec t)

/-! ## Dependency-provider mutator: detector stability and idempotence -/

theorem depsImportHere_stmt (spec : DepsSpec) :
    depsImportHere spec (depsImportStmt spec) = true := by
  simp [depsImportHere, depsImportStmt]

theorem depsFuncHere_stmt (spec : DepsSpec) :
    depsFuncHere spec (depsFuncStmt spec) = true := by
  simp [depsFuncHere, depsFuncStmt]

theorem nodeDeepAny_funcDef (f : Node → Bool) (n sg : String) (b : List Node) :
    nodeDeepAny f (.funcDef n sg b) = (f (.funcDef n sg b) || nodesDeepAny f b) := rfl

theorem depsTransform_seenImport (spec : DepsSpec) (t : List Node) :
    depsSeenImport spec (depsTransform spec t) = true := by
  have himp : nodeDeepAny (depsImportHere spec) (depsImportStmt spec) = true :=
    depsImportHere_stmt spec
  unfold depsTransform
  by_cases hsi : depsSeenImport spec t = true
  · rw [if_pos hsi]
    by_cases hsf : depsSeenFunc spec t = true
    · rw [if_pos hsf]; exact hsi
    · rw [if_neg hsf]
      unfold depsSeenImport at hsi ⊢
      rw [nodesDeepAny_append, nodesDeepAny_append, hsi]
      rfl
  · rw [if_neg hsi]
    by_cases hsf : depsSeenFunc spec t = true
    · rw [if_pos hsf]
      unfold depsSeenImport
      rw [nodesDeepAny_insert, himp]
      rfl
    · rw [if_neg hsf]
      unfold depsSeenImport
      rw [nodesDeepAny_append, nodesDeepAny_append, nodesDeepAny_insert, himp]
      rfl

theorem depsTransform_seenFunc (spec : DepsSpec) (t : List Node) :
    depsSeenFunc spec (depsTransform spec t) = true := by
  have hfn : nodeDeepAny (depsFuncHere spec) (depsFuncStmt spec) = true := by
    rw [show depsFuncStmt spec = Node.funcDef spec.func_name
          ("(\n    storage: AbstractSQLAlchemyStorage = Depends(get_storage),\n) -> "
            ++ spec.import_name)
          [.stmtLine [.unknown ("return " ++ spec.import_name ++ "(storage)")] none]
        from rfl]
    rw [nodeDeepAny_funcDef]
    rw [show depsFuncHere spec (Node.funcDef spec.func_name
          ("(\n    storage: AbstractSQLAlchemyStorage = Depends(get_storage),\n) -> "
            ++ spec.import_name)
          [.stmtLine [.unknown ("return " ++ spec.import_name ++ "(storage)")] none])
        = (spec.func_name == spec.func_name) from rfl]
    simp
  unfold depsTransform
  by_cases hsf : depsSeenFunc spec t = true
  · rw [if_pos hsf]
    by_cases hsi : depsSeenImport spec t = true
    · rw [if_pos hsi]; exact hsf
    · rw [if_neg hsi]
      unfold depsSeenFunc at hsf ⊢
      rw [nodesDeepAny_insert, hsf]
      simp
  · rw [if_neg hsf]
    by_cases hsi : depsSeenImport spec t = true
    · rw [if_pos hsi]
      unfold depsSeenFunc
      rw [nodesDeepAny_append, nodesDeepAny_append, nodesDeepAny_singleton, hfn]
      simp
    · rw [if_neg hsi]
      unfold depsSeenFunc
      rw [nodesDeepAny_append, nodesDeepAny_append, nodesDeepAny_singleton, hfn]
      simp

/-- When both dependency-provider patterns are present, `leave_Module`
leaves the body unchanged (codemods.py lines 125-162). -/
theorem depsTransform_noop (spec : DepsSpec) (t : List Node)
    (h1 : depsSeenImport spec t = true) (h2 : depsSeenFunc spec t = true) :
    depsTransform spec t = t := by
  unfold depsTransform
  rw [if_pos h1, if_pos h2]

theorem depsTransform_idem (spec : DepsSpec) (t : List Node) :
    depsTransform spec (depsTransform spec t) = depsTransform spec t :=
  depsTransform_noop spec (depsTransform spec t)
    (depsTransform_seenImport spec t) (depsTransform_seenFunc spec t)

/-! ## Export mutator: structural lemmas -/

/-- The name list a matched `__all__` line contributes. -/
def nodeExtract : Node → List String
  | .stmtLine b _ => extractNames b
  | _ => []

/-- A node whose nested bodies contain no `__all__` assignment. -/
def nodeTopOnly : Node → Bool
  | .funcDef _ _ b => !nodesDeepAny isAllLine b
  | .classDef _ _ b => !nodesDeepAny isAllLine b
  | _ => true

/-- Every `__all__` assignment of the module is a top-level statement. -/
def topAllOnly (t : List Node) : Bool := t.all nodeTopOnly

theorem mem_dropWhile_of_neg {α} (p : α → Bool) {l : List α} {x : α}
    (hx : x ∈ l) (hpx : p x = false) : x ∈ l.dropWhile p := by
  have := List.takeWhile_append_dropWhile p l
  rw [← this] at hx
  rcases List.mem_append.mp hx with h | h
  · have := List.mem_takeWhile_imp h
    rw [hpx] at this
    cases this
  · exact h

theorem mem_strip_of_not_empty {l : List Node} {x : Node}
    (hx : x ∈ l) (hne : isEmptyLine x = false) : x ∈ stripTrailingEmpty l := by
  unfold stripTrailingEmpty
  rw [List.mem_reverse]
  exact mem_dropWhile_of_neg isEmptyLine (List.mem_reverse.mpr hx) hne

theorem isImportLine_not_empty (z : Node) (h : isImportLine z = true) :
    isEmptyLine z = false := by
  cases z <;> simp_all [isImportLine, isEmptyLine]

theorem isAllLine_not_empty (z : Node) (h : isAllLine z = true) :
    isEmptyLine z = false := by
  cases z <;> simp_all [isAllLine, isEmptyLine]

theorem nodeLastAll_exportImportStmt (spec : ModelExportSpec) (acc : List String) :
    nodeLastAll acc (exportImportStmt spec) = acc := rfl

theorem nodesLastAll_insert_neutral (s : Node) (t : List Node)
    (hs : ∀ acc, nodeLastAll acc s = acc) (acc : List String) :
    nodesLastAll acc (insertAfterLastImport s t) = nodesLastAll acc t := by
  rw [insertAfterLastImport_eq]
  conv_rhs => rw [← splitAtLastImport_append t]
  rw [nodesLastAll_append, nodesLastAll_append]
  rw [show nodesLastAll (nodesLastAll acc (splitAtLastImport t).1)
        (s :: (splitAtLastImport t).2)
      = nodesLastAll (nodeLastAll (nodesLastAll acc (splitAtLastImport t).1) s)
        (splitAtLastImport t).2 from rfl]
  rw [hs]

/-- On a node free of nested `__all__` assignments, the
`current_all_names` step either overwrites the accumulator with this
line's names or leaves it alone. -/
theorem nodeLastAll_topOnly (n : Node) (h : nodeTopOnly n = true) (acc : List String) :
    nodeLastAll acc n = (if isAllLine n then nodeExtract n else acc) := by
  cases n with
  | stmtLine b c => simp [nodeLastAll, isAllLine, nodeExtract]
  | funcDef nm sg b =>
      have hb : nodesDeepAny isAllLine b = false := by
        simpa [nodeTopOnly] using h
      simp [nodeLastAll, isAllLine, nodesLastAll_of_free acc b hb]
  | classDef nm sg b =>
      have hb : nodesDeepAny isAllLine b = false := by
        simpa [nodeTopOnly] using h
      simp [nodeLastAll, isAllLine, nodesLastAll_of_free acc b hb]
  | emptyLine => simp [nodeLastAll, isAllLine]

/-- Over nodes free of nested `__all__` assignments and with no
top-level `__all__` line, the accumulator passes through unchanged. -/
theorem nodesLastAll_neutral (R : List Node)
    (hto : ∀ x ∈ R, nodeTopOnly x = true) (hfree : R.any isAllLine = false)
    (acc : List String) : nodesLastAll acc R = acc := by
  induction R generalizing acc with
  | nil => rfl
  | cons n r ih =>
      rw [show nodesLastAll acc (n :: r) = nodesLastAll (nodeLastAll acc n) r from rfl]
      have hn : isAllLine n = false := by
        have := hfree
        rw [List.any_cons] at this
        exact (Bool.or_eq_false_iff.mp this).1
      have hr : r.any isAllLine = false := by
        have := hfree
        rw [List.any_cons] at this
        exact (Bool.or_eq_false_iff.mp this).2
      rw [nodeLastAll_topOnly n (hto n (by simp)) acc, hn]
      simp only [Bool.false_eq_true, if_false]
      exact ih (fun x hx => hto x (by simp [hx])) hr acc

/-- Over nodes free of nested `__all__` assignments, if a top-level
`__all__` line is present the result does not depend on the incoming
accumulator (the first such line overwrites it). -/
theorem nodesLastAll_acc_indep (R : List Node)
    (hto : ∀ x ∈ R, nodeTopOnly x = true) (hall : R.any isAllLine = true)
    (acc acc' : List String) : nodesLastAll acc R = nodesLastAll acc' R := by
  induction R generalizing acc acc' with
  | nil => simp at hall
  | cons n r ih =>
      rw [show nodesLastAll acc (n :: r) = nodesLastAll (nodeLastAll acc n) r from rfl]
      rw [show nodesLastAll acc' (n :: r) = nodesLastAll (nodeLastAll acc' n) r from rfl]
      by_cases hn : isAllLine n = true
      · rw [nodeLastAll_topOnly n (hto n (by simp)) acc, hn,
          nodeLastAll_topOnly n (hto n (by simp)) acc', hn]
        simp
      · have hn' : isAllLine n = false := by simpa using hn
        have hr : r.any isAllLine = true := by
          have := hall
          rw [List.any_cons, hn'] at this
          simpa using this
        rw [nodeLastAll_topOnly n (hto n (by simp)) acc, hn',
          nodeLastAll_topOnly n (hto n (by simp)) acc', hn']
        simp only [Bool.false_eq_true, if_false]
        exact ih (fun x hx => hto x (by simp [hx])) hr acc acc'

/-- Replace-branch computation: when the body splits as
`P ++ a :: R` at its first top-level `__all__` line. -/
theorem exportBody_shape (names0 names1 : List String) (P R : List Node) (a : Node)
    (hP : ∀ x ∈ P, isAllLine x = false) (ha : isAllLine a = true) :
    exportBodyTransform names0 names1 (P ++ a :: R)
      = stripTrailingEmpty P ++ Node.emptyLine :: buildAllStmt names1 :: R := by
  have htake : (P ++ a :: R).takeWhile (fun n => !isAllLine n) = P := by
    rw [takeWhileAppendAll _ _ _ (fun x hx => by simp [hP x hx])]
    rw [List.takeWhile_cons]
    simp [ha]
  have hdrop : (P ++ a :: R).dropWhile (fun n => !isAllLine n) = a :: R := by
    rw [dropWhileAppendAll _ _ _ (fun x hx => by simp [hP x hx])]
    rw [List.dropWhile_cons]
    simp [ha]
  unfold exportBodyTransform
  rw [hdrop, htake]

/-- Insert-branch computation: when the body has no top-level
`__all__` line. -/
theorem exportBody_shape_none (names0 names1 : List String) (body : List Node)
    (hfree : ∀ x ∈ body, isAllLine x = false) :
    exportBodyTransform names0 names1 body
      = (splitAtLastImport body).1
          ++ Node.emptyLine :: buildAllStmt names0
          :: (splitAtLastImport body).2.dropWhile isEmptyLine := by
  have hdrop : body.dropWhile (fun n => !isAllLine n) = [] :=
    List.dropWhile_eq_nil_iff.mpr (fun x hx => by simp [hfree x hx])
  unfold exportBodyTransform
  rw [hdrop]

theorem exportImportHere_stmt (spec : ModelExportSpec) :
    exportImportHere spec (exportImportStmt spec) = true := by
  simp [exportImportHere, exportImportStmt]

theorem exportImportHere_of_allLine (spec : ModelExportSpec) (x : Node)
    (hall : isAllLine x = true) : nodeDeepAny (exportImportHere spec) x = false := by
  cases x with
  | stmtLine b c =>
      rw [nodeDeepAny_stmtLine]
      have hall' : isAllAssign b = true := hall
      unfold isAllAssign at hall'
      split at hall'
      · simp [exportImportHere]
      · simp at hall'
  | funcDef n s b => simp [isAllLine] at hall
  | classDef n s b => simp [isAllLine] at hall
  | emptyLine => simp [isAllLine] at hall

theorem witness_not_empty {f : Node → Bool} {x : Node}
    (hf : f Node.emptyLine = false) (hx : nodeDeepAny f x = true) :
    isEmptyLine x = false := by
  cases x with
  | stmtLine b c => rfl
  | funcDef n s b => rfl
  | classDef n s b => rfl
  | emptyLine =>
      rw [show nodeDeepAny f Node.emptyLine = f Node.emptyLine from rfl, hf] at hx
      cases hx

/-- The model import is present in the export-mutator output: either it
was already seen, or it has just been inserted. -/
theorem exportTransform_seenImport (spec : ModelExportSpec) (t : List Node) :
    exportSeenImport spec (exportTransform spec t) = true := by
  unfold exportTransform
  set n0 := addModel spec (addBase []) with hn0
  set n1 := addModel spec (addBase (nodesLastAll [] t)) with hn1
  set B := (if exportSeenImport spec t then t
            else insertAfterLastImport (exportImportStmt spec) t) with hB
  have hwit : ∃ x ∈ B, nodeDeepAny (exportImportHere spec) x = true := by
    by_cases hsi : exportSeenImport spec t = true
    · rw [hB, if_pos hsi]
      unfold exportSeenImport at hsi
      rw [nodesDeepAny_eq_any, List.any_eq_true] at hsi
      exact hsi
    · rw [hB, if_neg hsi]
      refine ⟨exportImportStmt spec, ?_, ?_⟩
      · rw [insertAfterLastImport_eq]
        exact List.mem_append.mpr (Or.inr (by simp))
      · exact exportImportHere_stmt spec
  obtain ⟨x, hxB, hfx⟩ := hwit
  have hxe : isEmptyLine x = false := witness_not_empty rfl hfx
  have hxa : isAllLine x = false := by
    by_cases h : isAllLine x = true
    · rw [exportImportHere_of_allLine spec x h] at hfx
      cases hfx
    · simpa using h
  have hout : x ∈ exportBodyTransform n0 n1 B := by
    cases hfound : B.dropWhile (fun n => !isAllLine n) with
    | cons a R =>
        have hsplit : B.takeWhile (fun n => !isAllLine n) ++ a :: R = B := by
          rw [← hfound]
          exact List.takeWhile_append_dropWhile _ _
        have ha : isAllLine a = true := by
          have := headDropWhileFalse hfound
          simpa using this
        have hPfree : ∀ y ∈ B.takeWhile (fun n => !isAllLine n), isAllLine y = false :=
          fun y hy => by simpa using List.mem_takeWhile_imp hy
        rw [show B = B.takeWhile (fun n => !isAllLine n) ++ a :: R from hsplit.symm,
          exportBody_shape n0 n1 _ R a hPfree ha]
        rw [← hsplit] at hxB
        rcases List.mem_append.mp hxB with hP | hAR
        · exact List.mem_append.mpr (Or.inl (mem_strip_of_not_empty hP hxe))
        · rcases List.mem_cons.mp hAR with rfl | hR
          · rw [ha] at hxa
            cases hxa
          · exact List.mem_append.mpr (Or.inr (by simp [hR]))
    | nil =>
        have hfree : ∀ y ∈ B, isAllLine y = false := fun y hy => by
          simpa using List.dropWhile_eq_nil_iff.mp hfound y hy
        rw [exportBody_shape_none n0 n1 B hfree]
        have hsplit := splitAtLastImport_append B
        rw [← hsplit] at hxB
        rcases List.mem_append.mp hxB with h1 | h2
        · exact List.mem_append.mpr (Or.inl h1)
        · refine List.mem_append.mpr (Or.inr ?_)
          exact List.mem_cons.mpr (Or.inr (List.mem_cons.mpr
            (Or.inr (mem_dropWhile_of_neg isEmptyLine h2 hxe))))
  unfold exportSeenImport
  exact nodesDeepAny_of_mem hout hfx

theorem any_false {α} (p : α → Bool) (l : List α) (h : ∀ x ∈ l, p x = false) :
    l.any p = false := by
  induction l with
  | nil => rfl
  | cons x xs ih =>
      simp [List.any_cons, h x (by simp), ih (fun y hy => h y (by simp [hy]))]

/-- The export mutator is idempotent on modules whose `__all__`
assignments are all top-level. -/
theorem exportTransform_idem (spec : ModelExportSpec) (t : List Node)
    (hto : topAllOnly t = true) :
    exportTransform spec (exportTransform spec t) = exportTransform spec t := by
  simp only [topAllOnly, List.all_eq_true] at hto
  set B := (if exportSeenImport spec t then t
      else insertAfterLastImport (exportImportStmt spec) t) with hB
  set n0 := addModel spec (addBase []) with hn0
  set n1 := addModel spec (addBase (nodesLastAll [] t)) with hn1
  have hT : exportTransform spec t = exportBodyTransform n0 n1 B := rfl
  have hBto : ∀ x ∈ B, nodeTopOnly x = true := by
    intro x hx
    rw [hB] at hx
    by_cases hsi : exportSeenImport spec t = true
    · rw [if_pos hsi] at hx
      exact hto x hx
    · rw [if_neg hsi, insertAfterLastImport_eq] at hx
      rcases List.mem_append.mp hx with h1 | h2
      · refine hto x ?_
        rw [← splitAtLastImport_append t]
        exact List.mem_append.mpr (Or.inl h1)
      · rcases List.mem_cons.mp h2 with rfl | h3
        · rfl
        · refine hto x ?_
          rw [← splitAtLastImport_append t]
          exact List.mem_append.mpr (Or.inr h3)
  have hcur : nodesLastAll [] B = nodesLastAll [] t := by
    rw [hB]
    by_cases hsi : exportSeenImport spec t = true
    · rw [if_pos hsi]
    · rw [if_neg hsi]
      exact nodesLastAll_insert_neutral _ t (nodeLastAll_exportImportStmt spec) []
  have hsi2 := exportTransform_seenImport spec t
  cases hfound : B.dropWhile (fun n => !isAllLine n) with
  | cons a R =>
      set P := B.takeWhile (fun n => !isAllLine n) with hP
      have hsplit : P ++ a :: R = B := by
        rw [hP, ← hfound]
        exact List.takeWhile_append_dropWhile _ _
      have ha : isAllLine a = true := by simpa using headDropWhileFalse hfound
      have hPfree : ∀ y ∈ P, isAllLine y = false := fun y hy => by
        rw [hP] at hy
        simpa using List.mem_takeWhile_imp hy
      have h1 : exportTransform spec t
          = stripTrailingEmpty P ++ Node.emptyLine :: buildAllStmt n1 :: R := by
        rw [hT, ← hsplit]
        exact exportBody_shape n0 n1 P R a hPfree ha
      have hRto : ∀ x ∈ R, nodeTopOnly x = true := by
        intro x hx
        refine hBto x ?_
        rw [← hsplit]
        exact List.mem_append.mpr (Or.inr (by simp [hx]))
      have haTo : nodeTopOnly a = true := by
        refine hBto a ?_
        rw [← hsplit]
        exact List.mem_append.mpr (Or.inr (by simp))
      -- the `current_all_names` of the run-1 output feed `n1` back
      have hlast : nodesLastAll []
          (stripTrailingEmpty P ++ Node.emptyLine :: buildAllStmt n1 :: R)
          = nodesLastAll n1 R := by
        rw [nodesLastAll_append]
        rw [show nodesLastAll (nodesLastAll [] (stripTrailingEmpty P))
              (Node.emptyLine :: buildAllStmt n1 :: R)
            = nodesLastAll (nodeLastAll (nodeLastAll
                (nodesLastAll [] (stripTrailingEmpty P)) Node.emptyLine)
                (buildAllStmt n1)) R from rfl]
        rw [show nodeLastAll (nodesLastAll [] (stripTrailingEmpty P)) Node.emptyLine
            = nodesLastAll [] (stripTrailingEmpty P) from rfl]
        rw [nodeLastAll_buildAllStmt]
      have hstep : addModel spec (addBase (nodesLastAll n1 R)) = n1 := by
        by_cases hR : R.any isAllLine = true
        · have hcurEq : nodesLastAll [] t = nodesLastAll n1 R := by
            calc nodesLastAll [] t = nodesLastAll [] B := hcur.symm
              _ = nodesLastAll [] (P ++ a :: R) := by rw [hsplit]
              _ = nodesLastAll (nodeLastAll (nodesLastAll [] P) a) R := by
                    rw [nodesLastAll_append]
                    rfl
              _ = nodesLastAll (nodeExtract a) R := by
                    rw [nodeLastAll_topOnly a haTo, ha]
                    simp
              _ = nodesLastAll n1 R := nodesLastAll_acc_indep R hRto hR _ n1
          rw [← hcurEq, hn1]
        · have hR' : R.any isAllLine = false := by simpa using hR
          rw [nodesLastAll_neutral R hRto hR' n1, hn1]
          exact addBase_addModel_idem spec (nodesLastAll [] t)
      rw [h1] at hsi2 ⊢
      have hT2 : exportTransform spec
          (stripTrailingEmpty P ++ Node.emptyLine :: buildAllStmt n1 :: R)
          = exportBodyTransform n0
              (addModel spec (addBase (nodesLastAll []
                (stripTrailingEmpty P ++ Node.emptyLine :: buildAllStmt n1 :: R))))
              (stripTrailingEmpty P ++ Node.emptyLine :: buildAllStmt n1 :: R) := by
        unfold exportTransform
        rw [if_pos hsi2]
      rw [hT2, hlast, hstep]
      have hassoc : stripTrailingEmpty P ++ Node.emptyLine :: buildAllStmt n1 :: R
          = (stripTrailingEmpty P ++ [Node.emptyLine]) ++ buildAllStmt n1 :: R := by
        rw [List.append_assoc]
        rfl
      rw [hassoc]
      have hP2free : ∀ y ∈ stripTrailingEmpty P ++ [Node.emptyLine],
          isAllLine y = false := by
        intro y hy
        rcases List.mem_append.mp hy with h1' | h2'
        · exact hPfree y (mem_strip h1')
        · rcases List.mem_cons.mp h2' with rfl | h3'
          · rfl
          · cases h3'
      rw [exportBody_shape n0 n1 _ R (buildAllStmt n1) hP2free (isAllLine_buildAllStmt n1)]
      rw [strip_strip_append_empty]
      exact hassoc
  | nil =>
      have hfree : ∀ y ∈ B, isAllLine y = false := fun y hy => by
        simpa using List.dropWhile_eq_nil_iff.mp hfound y hy
      set S1 := (splitAtLastImport B).1 with hS1
      set S2 := (splitAtLastImport B).2 with hS2
      have h1 : exportTransform spec t
          = S1 ++ Node.emptyLine :: buildAllStmt n0 :: S2.dropWhile isEmptyLine := by
        rw [hT]
        exact exportBody_shape_none n0 n1 B hfree
      have hS1B : ∀ x ∈ S1, x ∈ B := by
        intro x hx
        rw [← splitAtLastImport_append B]
        exact List.mem_append.mpr (Or.inl hx)
      have hS2B : ∀ x ∈ S2.dropWhile isEmptyLine, x ∈ B := by
        intro x hx
        rw [← splitAtLastImport_append B]
        refine List.mem_append.mpr (Or.inr ?_)
        exact (List.dropWhile_sublist isEmptyLine).mem hx
      have hS1strip : stripTrailingEmpty S1 = S1 := by
        rcases splitAtLastImport_fst_last B with h | ⟨z, hz, hzi⟩
        · rw [hS1, h]
          rfl
        · refine strip_of_getLast_not_empty S1 ?_
          intro w hw
          rw [hS1, hz] at hw
          cases hw
          exact isImportLine_not_empty z hzi
      have hlast : nodesLastAll []
          (S1 ++ Node.emptyLine :: buildAllStmt n0 :: S2.dropWhile isEmptyLine) = n0 := by
        rw [nodesLastAll_append]
        rw [nodesLastAll_neutral S1 (fun x hx => hBto x (hS1B x hx))
          (any_false _ _ (fun x hx => hfree x (hS1B x hx))) []]
        rw [show nodesLastAll [] (Node.emptyLine :: buildAllStmt n0 :: S2.dropWhile isEmptyLine)
            = nodesLastAll (nodeLastAll (nodeLastAll [] Node.emptyLine) (buildAllStmt n0))
                (S2.dropWhile isEmptyLine) from rfl]
        rw [show nodeLastAll ([] : List String) Node.emptyLine = [] from rfl]
        rw [nodeLastAll_buildAllStmt]
        exact nodesLastAll_neutral _ (fun x hx => hBto x (hS2B x hx))
          (any_false _ _ (fun x hx => hfree x (hS2B x hx))) n0
      have hstep : addModel spec (addBase n0) = n0 := by
        rw [hn0]
        exact addBase_addModel_idem spec []
      rw [h1] at hsi2 ⊢
      have hT2 : exportTransform spec
          (S1 ++ Node.emptyLine :: buildAllStmt n0 :: S2.dropWhile isEmptyLine)
          = exportBodyTransform n0
              (addModel spec (addBase (nodesLastAll []
                (S1 ++ Node.emptyLine :: buildAllStmt n0 :: S2.dropWhile isEmptyLine))))
              (S1 ++ Node.emptyLine :: buildAllStmt n0 :: S2.dropWhile isEmptyLine) := by
        unfold exportTransform
        rw [if_pos hsi2]
      rw [hT2, hlast, hstep]
      have hassoc : S1 ++ Node.emptyLine :: buildAllStmt n0 :: S2.dropWhile isEmptyLine
          = (S1 ++ [Node.emptyLine]) ++ buildAllStmt n0 :: S2.dropWhile isEmptyLine := by
        rw [List.append_assoc]
        rfl
      rw [hassoc]
      have hP2free : ∀ y ∈ S1 ++ [Node.emptyLine], isAllLine y = false := by
        intro y hy
        rcases List.mem_append.mp hy with h1' | h2'
        · exact hfree y (hS1B y h1')
        · rcases List.mem_cons.mp h2' with rfl | h3'
          · rfl
          · cases h3'
      rw [exportBody_shape n0 n0 _ _ (buildAllStmt n0) hP2free (isAllLine_buildAllStmt n0)]
      rw [strip_append_emptyLine, hS1strip]
      exact hassoc

/-! ## Rendering of the canonical `__all__` statement -/

theorem foldl_append_str (l : List String) : ∀ x y,
    l.foldl (fun r s => r ++ s) (x ++ y) = x ++ l.foldl (fun r s => r ++ s) y := by
  induction l with
  | nil => intro x y; rfl
  | cons a as ih =>
      intro x y
      show as.foldl _ (x ++ y ++ a) = x ++ as.foldl _ (y ++ a)
      rw [String.append_assoc]
      exact ih x (y ++ a)

theorem join_cons (a : String) (l : List String) :
    String.join (a :: l) = a ++ String.join l := by
  show l.foldl (fun r s => r ++ s) ("" ++ a) = a ++ l.foldl (fun r s => r ++ s) ""
  rw [String.empty_append, ← String.append_empty a]
  rw [foldl_append_str l a ""]
  rw [String.append_empty]

/-- The rendered element run of the canonical `__all__` list: each name
on its own (indented) line, single-quoted, comma-terminated. -/
theorem render_canon_key (m : String) (r : List String) :
    "    " ++ renderElems (canonElems (m :: r))
      = String.join ((m :: r).map (fun n => "    " ++ quoteStr false n ++ ",\n")) := by
  induction r generalizing m with
  | nil =>
      rw [List.map_cons, List.map_nil, join_cons]
      show "    " ++ (quoteStr false m ++ ",\n" ++ "") = _
      rw [show String.join [] = "" from rfl]
      simp [String.append_assoc, String.append_empty]
  | cons k s ih =>
      rw [List.map_cons, join_cons, ← ih k]
      show "    " ++ (quoteStr false m ++ ",\n    " ++ renderElems (canonElems (k :: s))) = _
      simp only [show (",\n    " : String) = ",\n" ++ "    " from by decide,
        String.append_assoc]

/-- The canonical `__all__` statement prints exactly as the source's
`build_all_stmt` template: one name per line, single-quoted, each line
comma-terminated, closing bracket alone on its line. -/
theorem render_buildAllStmt (names : List String) (h : names ≠ []) :
    renderNode "" (buildAllStmt names)
      = "__all__ = [\n" ++
        String.join (names.map (fun n => "    " ++ quoteStr false n ++ ",\n")) ++ "]\n" := by
  obtain ⟨m, r, rfl⟩ : ∃ m r, names = m :: r := by
    cases names with
    | nil => cases h rfl
    | cons m r => exact ⟨m, r, rfl⟩
  rw [← render_canon_key m r]
  rw [show ("__all__ = [\n" : String) = "__all__" ++ " = " ++ "[" ++ "\n" from by decide]
  rw [show ("]\n" : String) = "]" ++ "\n" from by decide]
  simp only [renderNode, buildAllStmt, renderSmalls, renderSmall, renderTargets,
    renderTarget, renderAValue, renderComment,
    show ("\n    " : String) = "\n" ++ "    " from by decide, String.empty_append,
    String.append_empty, String.append_assoc]
  simp

/-! ## Concrete fixtures for witnesses and counterexamples -/

/-- The derived router spec for module `widget` (as built by
`ensure_router_registered`). -/
def rs0 : RouterSpec := mkRouterSpec "widget" "app"

/-- The derived dependency spec for module `widget`, model `Widget`. -/
def ds0 : DepsSpec := mkDepsSpec "widget" "Widget"

/-- The export spec for module `widget`, model `Widget`. -/
def es0 : ModelExportSpec := ⟨"widget", "Widget"⟩

/-- A valid module with a nested `__all__` assignment inside a class
body, after a plain import. -/
def cexNested : List Node :=
  [Node.stmtLine [Small.importPlain "x"] none,
   Node.classDef "C" "" [Node.stmtLine [Small.assign [Target.name "__all__"]
     (AValue.coll false "" [Elem.str false "Z" ""])] none]]

/-- A module that already satisfies the export mutator's pattern
(import present, model listed) but keeps its `__all__` on a single
line. -/
def cexSingleLine : List Node :=
  [exportImportStmt es0,
   Node.emptyLine,
   Node.stmtLine [Small.assign [Target.name "__all__"]
     (AValue.coll false "" [Elem.str false "Base" ", ", Elem.str false "Widget" ""])] none]

/-! ## Claim C1 — idempotence of the three mutators -/

/-- C1 counterexample: the export-list mutator is not idempotent on
every valid input.  On `cexNested` (a nested `__all__ = ["Z"]` inside a
class) the first run inserts `__all__ = ["Base", "Widget"]`, but the
second run rebuilds it from the visit-phase accumulator, which the
nested assignment overwrote, yielding `["Base", "Z", "Widget"]`: the
re-serialized text changes again. -/
theorem C1_counterexample :
    render (exportTransform es0 (exportTransform es0 cexNested))
      ≠ render (exportTransform es0 cexNested) := by decide

/-- C1 (amended): the router-registration and dependency-provider
mutators are idempotent on every module body; the export-list mutator
is idempotent on every module body whose `__all__` assignments are all
top-level (a nested `__all__` assignment can defeat it). -/
theorem C1_amended_idempotence (rs : RouterSpec) (ds : DepsSpec) (es : ModelExportSpec)
    (t₁ t₂ t₃ : List Node) (h : topAllOnly t₃ = true) :
    routerTransform rs (routerTransform rs t₁) = routerTransform rs t₁ ∧
    depsTransform ds (depsTransform ds t₂) = depsTransform ds t₂ ∧
    exportTransform es (exportTransform es t₃) = exportTransform es t₃ :=
  ⟨routerTransform_idem rs t₁, depsTransform_idem ds t₂, exportTransform_idem es t₃ h⟩

/-- C1 witness: the amended idempotence at concrete inputs. -/
theorem C1_witness :
    topAllOnly ([] : List Node) = true ∧
    (routerTransform rs0 (routerTransform rs0 []) = routerTransform rs0 [] ∧
     depsTransform ds0 (depsTransform ds0 []) = depsTransform ds0 [] ∧
     exportTransform es0 (exportTransform es0 []) = exportTransform es0 []) :=
  ⟨rfl, C1_amended_idempotence rs0 ds0 es0 [] [] [] rfl⟩

/-! ## Claim C2 — byte-for-byte no-op on pattern-satisfying input -/

/-- C2 counterexample: a file that already satisfies the export
mutator's target pattern (model import present, model name listed in
the manifest) is still rewritten: the single-line `__all__` is
re-emitted in canonical multi-line form, so the text changes. -/
theorem C2_counterexample :
    exportSeenImport es0 cexSingleLine = true ∧
    (nodesLastAll [] cexSingleLine).contains es0.model_name = true ∧
    render (exportTransform es0 cexSingleLine) ≠ render cexSingleLine := by
  refine ⟨rfl, rfl, ?_⟩
  decide

/-- C2 (amended): pattern-satisfying input is returned unchanged by the
router-registration and dependency-provider mutators; the export-list
mutator leaves a file unchanged only when its manifest is already the
canonical rebuilt statement (the exact name list the rebuild computes),
preceded by exactly one blank line with no further blank run before
it. -/
theorem C2_amended_noop (rs : RouterSpec) (ds : DepsSpec) (es : ModelExportSpec)
    (t₁ t₂ q rest : List Node) (names : List String)
    (hr1 : routerSeenImport rs t₁ = true) (hr2 : routerSeenInclude rs t₁ = true)
    (hd1 : depsSeenImport ds t₂ = true) (hd2 : depsSeenFunc ds t₂ = true)
    (he1 : exportSeenImport es (q ++ Node.emptyLine :: buildAllStmt names :: rest) = true)
    (he2 : ∀ x ∈ q, isAllLine x = false)
    (he3 : ∀ z, q.getLast? = some z → isEmptyLine z = false)
    (he4 : addModel es (addBase (nodesLastAll []
        (q ++ Node.emptyLine :: buildAllStmt names :: rest))) = names) :
    routerTransform rs t₁ = t₁ ∧
    depsTransform ds t₂ = t₂ ∧
    exportTransform es (q ++ Node.emptyLine :: buildAllStmt names :: rest)
      = q ++ Node.emptyLine :: buildAllStmt names :: rest := by
  refine ⟨routerTransform_noop rs t₁ hr1 hr2, depsTransform_noop ds t₂ hd1 hd2, ?_⟩
  have hT : exportTransform es (q ++ Node.emptyLine :: buildAllStmt names :: rest)
      = exportBodyTransform (addModel es (addBase []))
          (addModel es (addBase (nodesLastAll []
            (q ++ Node.emptyLine :: buildAllStmt names :: rest))))
          (q ++ Node.emptyLine :: buildAllStmt names :: rest) := by
    unfold exportTransform
    rw [if_pos he1]
  rw [hT, he4]
  have hassoc : q ++ Node.emptyLine :: buildAllStmt names :: rest
      = (q ++ [Node.emptyLine]) ++ buildAllStmt names :: rest := by
    rw [List.append_assoc]
    rfl
  rw [hassoc]
  have hfree : ∀ y ∈ q ++ [Node.emptyLine], isAllLine y = false := by
    intro y hy
    rcases List.mem_append.mp hy with h1 | h2
    · exact he2 y h1
    · rcases List.mem_cons.mp h2 with rfl | h3
      · rfl
      · cases h3
  rw [exportBody_shape _ names _ rest (buildAllStmt names) hfree
    (isAllLine_buildAllStmt names)]
  rw [strip_append_emptyLine, strip_of_getLast_not_empty q he3]
  exact hassoc

/-- C2 witness: the amended no-op at concrete pattern-satisfying
inputs. -/
theorem C2_witness :
    routerTransform rs0 [routerImportStmt rs0, routerIncludeStmt rs0]
        = [routerImportStmt rs0, routerIncludeStmt rs0] ∧
    depsTransform ds0 [depsImportStmt ds0, depsFuncStmt ds0]
        = [depsImportStmt ds0, depsFuncStmt ds0] ∧
    exportTransform es0 ([exportImportStmt es0]
        ++ Node.emptyLine :: buildAllStmt ["Base", "Widget"] :: [])
      = [exportImportStmt es0] ++ Node.emptyLine :: buildAllStmt ["Base", "Widget"] :: [] :=
  C2_amended_noop rs0 ds0 es0 _ _ _ _ _ (by decide) (by decide) (by decide) (by decide)
    (by decide) (by decide) (by decide) (by decide)

/-! ## Claim C3 — router import detection under a foreign alias -/

/-- A module importing the derived module path and symbol under an
alias different from the derived one. -/
def cexAlias : List Node :=
  [Node.stmtLine [Small.importFrom "src.api.widget.routes"
    [("router", some "other_alias")]] none]

/-- C3 counterexample: the router mutator does NOT recognize an import
whose alias differs from the derived alias: the detector reports
absent and a second import of the same module/symbol (with the derived
alias) is inserted right after it. -/
theorem C3_counterexample :
    routerSeenImport rs0 cexAlias = false ∧
    routerTransform rs0 cexAlias
      = [Node.stmtLine [Small.importFrom "src.api.widget.routes"
           [("router", some "other_alias")]] none,
         routerImportStmt rs0, routerIncludeStmt rs0] :=
  ⟨rfl, rfl⟩

/-- C3 (amended): the router mutator treats the import as present
exactly when the alias is absent or equal to the derived alias; under
any other alias the import is reported absent and a duplicate import
(with the derived alias) is inserted after it. -/
theorem C3_amended_alias (rs : RouterSpec) (a : Option String) :
    routerSeenImport rs
        [Node.stmtLine [Small.importFrom rs.import_module [(rs.import_name, a)]] none]
      = (a == none || a == some rs.aliasName) ∧
    ((a == none || a == some rs.aliasName) = false →
      routerTransform rs
          [Node.stmtLine [Small.importFrom rs.import_module [(rs.import_name, a)]] none]
        = [Node.stmtLine [Small.importFrom rs.import_module [(rs.import_name, a)]] none,
           routerImportStmt rs, routerIncludeStmt rs]) := by
  have hseen : routerSeenImport rs
      [Node.stmtLine [Small.importFrom rs.import_module [(rs.import_name, a)]] none]
      = (a == none || a == some rs.aliasName) := by
    show nodesDeepAny (routerImportHere rs) _ = _
    rw [nodesDeepAny_singleton, nodeDeepAny_stmtLine]
    simp [routerImportHere]
  refine ⟨hseen, fun hfalse => ?_⟩
  have hinc : routerSeenInclude rs
      [Node.stmtLine [Small.importFrom rs.import_module [(rs.import_name, a)]] none]
      = false := rfl
  unfold routerTransform
  rw [hseen, hfalse, hinc]
  rw [if_neg (by simp), if_neg (by simp)]
  rfl

/-- C3 witness: the amended characterization at a concrete foreign
alias. -/
theorem C3_witness :
    routerSeenImport rs0
        [Node.stmtLine [Small.importFrom rs0.import_module
          [(rs0.import_name, some "zz")]] none]
      = ((some "zz" : Option String) == none
          || (some "zz" : Option String) == some rs0.aliasName) ∧
    routerTransform rs0
        [Node.stmtLine [Small.importFrom rs0.import_module
          [(rs0.import_name, some "zz")]] none]
      = [Node.stmtLine [Small.importFrom rs0.import_module
           [(rs0.import_name, some "zz")]] none,
         routerImportStmt rs0, routerIncludeStmt rs0] :=
  ⟨(C3_amended_alias rs0 (some "zz")).1,
   (C3_amended_alias rs0 (some "zz")).2 (by decide)⟩

/-! ## Claim C4 — two blank lines before the appended provider -/

/-- C4: when the derived provider function is absent, the function is
appended last, preceded by exactly `max 2 k` blank-line units where `k`
is the count of blank-line units trailing the (import-adjusted) body:
fewer than two are padded to exactly two, more than two are never
trimmed. -/
theorem C4_two_blank_padding (ds : DepsSpec) (t b1 : List Node)
    (hfn : depsSeenFunc ds t = false)
    (hb1 : b1 = if depsSeenImport ds t then t
        else insertAfterLastImport (depsImportStmt ds) t) :
    depsTransform ds t
      = stripTrailingEmpty b1
        ++ List.replicate (max 2 (trailingBlanks b1)) Node.emptyLine
        ++ [depsFuncStmt ds] ∧
    ∀ z, (stripTrailingEmpty b1).getLast? = some z → isEmptyLine z = false := by
  constructor
  · unfold depsTransform
    rw [← hb1, if_neg (by simp [hfn])]
    nth_rewrite 1 [← strip_append_replicate b1]
    rw [List.append_assoc (stripTrailingEmpty b1), ← List.replicate_add]
    have harith : trailingBlanks b1 + (2 - trailingBlanks b1)
        = max 2 (trailingBlanks b1) := by omega
    rw [harith]
  · exact fun z => strip_getLast_not_empty b1 z

/-- C4 witness: the padding law at a concrete input with zero trailing
blank lines. -/
theorem C4_witness :
    (depsTransform ds0 []
      = stripTrailingEmpty [depsImportStmt ds0]
        ++ List.replicate (max 2 (trailingBlanks [depsImportStmt ds0])) Node.emptyLine
        ++ [depsFuncStmt ds0] ∧
     ∀ z, (stripTrailingEmpty [depsImportStmt ds0]).getLast? = some z →
       isEmptyLine z = false) :=
  C4_two_blank_padding ds0 [] [depsImportStmt ds0] rfl rfl

/-! ## Claim C5 — multiple `__all__` assignments -/

/-- A module with two top-level `__all__` assignments. -/
def cexTwoAll : List Node :=
  [Node.stmtLine [Small.assign [Target.name "__all__"]
     (AValue.coll false "" [Elem.str false "A" ""])] none,
   Node.stmtLine [Small.assign [Target.name "__all__"]
     (AValue.coll false "" [Elem.str false "B" ""])] none]

/-- C5 counterexample: with two top-level manifests
(`__all__ = ["A"]` then `__all__ = ["B"]`), the mutator rewrites the
FIRST one but from the LAST one's element list: the rebuilt manifest is
`["Base", "B", "Widget"]`, not the `["Base", "A", "Widget"]` the claim
("uses the first encountered manifest's element list") predicts.  The
second manifest is left untouched. -/
theorem C5_counterexample :
    exportTransform es0 cexTwoAll
      = [exportImportStmt es0, Node.emptyLine, buildAllStmt ["Base", "B", "Widget"],
         Node.stmtLine [Small.assign [Target.name "__all__"]
           (AValue.coll false "" [Elem.str false "B" ""])] none] ∧
    render (exportTransform es0 cexTwoAll)
      ≠ render [exportImportStmt es0, Node.emptyLine, buildAllStmt ["Base", "A", "Widget"],
          Node.stmtLine [Small.assign [Target.name "__all__"]
            (AValue.coll false "" [Elem.str false "B" ""])] none] :=
  ⟨rfl, by decide⟩

/-- C5 (amended): the export mutator replaces the FIRST top-level
manifest assignment in place (everything after it, including any later
manifest assignments, is untouched), but the element list it starts
from is the one of the LAST `__all__` assignment encountered in the
visit over the original tree (`nodesLastAll [] t`), which coincides
with the first's only when it is the sole one. -/
theorem C5_amended_first_position (es : ModelExportSpec) (t P R : List Node) (a : Node)
    (hB : (if exportSeenImport es t then t
        else insertAfterLastImport (exportImportStmt es) t) = P ++ a :: R)
    (hP : ∀ x ∈ P, isAllLine x = false) (ha : isAllLine a = true) :
    exportTransform es t
      = stripTrailingEmpty P
        ++ Node.emptyLine
        :: buildAllStmt (addModel es (addBase (nodesLastAll [] t))) :: R := by
  have hT : exportTransform es t = exportBodyTransform (addModel es (addBase []))
      (addModel es (addBase (nodesLastAll [] t)))
      (if exportSeenImport es t then t
       else insertAfterLastImport (exportImportStmt es) t) := rfl
  rw [hT, hB]
  exact exportBody_shape _ _ P R a hP ha

/-- C5 witness: the amended characterization at a concrete input. -/
theorem C5_witness :
    exportTransform es0 [exportImportStmt es0,
        Node.stmtLine [Small.assign [Target.name "__all__"]
          (AValue.coll false "" [Elem.str false "B" ""])] none]
      = stripTrailingEmpty [exportImportStmt es0]
        ++ Node.emptyLine
        :: buildAllStmt (addModel es0 (addBase (nodesLastAll []
             [exportImportStmt es0,
              Node.stmtLine [Small.assign [Target.name "__all__"]
                (AValue.coll false "" [Elem.str false "B" ""])] none])))
        :: [] :=
  C5_amended_first_position es0
    [exportImportStmt es0,
     Node.stmtLine [Small.assign [Target.name "__all__"]
       (AValue.coll false "" [Elem.str false "B" ""])] none]
    [exportImportStmt es0] []
    (Node.stmtLine [Small.assign [Target.name "__all__"]
      (AValue.coll false "" [Elem.str false "B" ""])] none)
    rfl (by decide) rfl

/-! ## Claim C6 — syntax error aborts before any write -/

/-- C6: on any input text the parser rejects, every driver entry point
propagates the error and the on-disk content (second component) is the
original text — no write happens. -/
theorem C6_syntax_error_no_write (parse : String → Except String (List Node))
    (text e module_name app_name model_name : String)
    (h : parse text = Except.error e) :
    ensure_router_registered parse text module_name app_name
        = (Except.error e, text) ∧
    ensure_repository_dependency parse text module_name model_name
        = (Except.error e, text) ∧
    ensure_model_export parse text module_name model_name
        = (Except.error e, text) := by
  unfold ensure_router_registered ensure_repository_dependency ensure_model_export
  rw [h]
  exact ⟨rfl, rfl, rfl⟩

/-- C6 witness: a concrete always-failing parser. -/
theorem C6_witness :
    ensure_router_registered
        (fun _ => Except.error "SyntaxError") "def f(:" "widget" "app"
        = (Except.error "SyntaxError", "def f(:") ∧
    ensure_repository_dependency
        (fun _ => Except.error "SyntaxError") "def f(:" "widget" "Widget"
        = (Except.error "SyntaxError", "def f(:") ∧
    ensure_model_export
        (fun _ => Except.error "SyntaxError") "def f(:" "widget" "Widget"
        = (Except.error "SyntaxError", "def f(:") :=
  C6_syntax_error_no_write _ _ _ _ _ _ rfl

/-! ## Claim C7 — import insertion position -/

/-- C7: when the derived import is absent, both the router-registration
and the dependency-provider mutator insert it immediately after the
last top-level import line (no import line follows the insertion point;
the element just before it, when any, is an import line), or at
position 0 when the module has no top-level import. -/
theorem C7_import_insertion_point (rs : RouterSpec) (ds : DepsSpec) (t₁ t₂ : List Node)
    (h1 : routerSeenImport rs t₁ = false) (h2 : depsSeenImport ds t₂ = false) :
    (∃ pre post, pre ++ post = t₁ ∧
      (∀ x ∈ post, isImportLine x = false) ∧
      (pre = [] ∨ ∃ z, pre.getLast? = some z ∧ isImportLine z = true) ∧
      routerTransform rs t₁ = (pre ++ routerImportStmt rs :: post)
        ++ (if routerSeenInclude rs t₁ then [] else [routerIncludeStmt rs])) ∧
    (∃ pre post, pre ++ post = t₂ ∧
      (∀ x ∈ post, isImportLine x = false) ∧
      (pre = [] ∨ ∃ z, pre.getLast? = some z ∧ isImportLine z = true) ∧
      depsTransform ds t₂ = (pre ++ depsImportStmt ds :: post)
        ++ (if depsSeenFunc ds t₂ then []
            else List.replicate (2 - trailingBlanks (pre ++ depsImportStmt ds :: post))
              Node.emptyLine ++ [depsFuncStmt ds])) := by
  constructor
  · refine ⟨(splitAtLastImport t₁).1, (splitAtLastImport t₁).2, splitAtLastImport_append t₁,
      splitAtLastImport_snd_noImport t₁, splitAtLastImport_fst_last t₁, ?_⟩
    have hb : (if routerSeenImport rs t₁ then t₁
        else insertAfterLastImport (routerImportStmt rs) t₁)
        = (splitAtLastImport t₁).1 ++ routerImportStmt rs :: (splitAtLastImport t₁).2 := by
      rw [if_neg (by simp [h1])]
      rfl
    unfold routerTransform
    rw [hb]
    by_cases hinc : routerSeenInclude rs t₁ = true
    · rw [if_pos hinc, if_pos hinc, List.append_nil]
    · rw [if_neg hinc, if_neg hinc]
  · refine ⟨(splitAtLastImport t₂).1, (splitAtLastImport t₂).2, splitAtLastImport_append t₂,
      splitAtLastImport_snd_noImport t₂, splitAtLastImport_fst_last t₂, ?_⟩
    have hb : (if depsSeenImport ds t₂ then t₂
        else insertAfterLastImport (depsImportStmt ds) t₂)
        = (splitAtLastImport t₂).1 ++ depsImportStmt ds :: (splitAtLastImport t₂).2 := by
      rw [if_neg (by simp [h2])]
      rfl
    unfold depsTransform
    rw [hb]
    by_cases hfn : depsSeenFunc ds t₂ = true
    · rw [if_pos hfn, if_pos hfn, List.append_nil]
    · rw [if_neg hfn, if_neg hfn]
      rw [List.append_assoc]

/-- C7 witness: both insertions at position 0 on the empty module. -/
theorem C7_witness :
    (∃ pre post, pre ++ post = ([] : List Node) ∧
      (∀ x ∈ post, isImportLine x = false) ∧
      (pre = [] ∨ ∃ z, pre.getLast? = some z ∧ isImportLine z = true) ∧
      routerTransform rs0 [] = (pre ++ routerImportStmt rs0 :: post)
        ++ (if routerSeenInclude rs0 [] then [] else [routerIncludeStmt rs0])) ∧
    (∃ pre post, pre ++ post = ([] : List Node) ∧
      (∀ x ∈ post, isImportLine x = false) ∧
      (pre = [] ∨ ∃ z, pre.getLast? = some z ∧ isImportLine z = true) ∧
      depsTransform ds0 [] = (pre ++ depsImportStmt ds0 :: post)
        ++ (if depsSeenFunc ds0 [] then []
            else List.replicate (2 - trailingBlanks (pre ++ depsImportStmt ds0 :: post))
              Node.emptyLine ++ [depsFuncStmt ds0])) :=
  C7_import_insertion_point rs0 ds0 [] [] rfl rfl

theorem nodeLastAll_of_allLine (a : Node) (ha : isAllLine a = true) (acc : List String) :
    nodeLastAll acc a = nodeExtract a := by
  cases a with
  | stmtLine b c =>
      have hb : isAllAssign b = true := ha
      simp [nodeLastAll, nodeExtract, hb]
  | funcDef n s b => cases ha
  | classDef n s b => cases ha
  | emptyLine => cases ha

theorem nodeDeepAny_classDef (f : Node → Bool) (n sg : String) (b : List Node) :
    nodeDeepAny f (.classDef n sg b) = (f (.classDef n sg b) || nodesDeepAny f b) := rfl

/-! ## Claim C8 — rebuilt manifest: order and canonical layout -/

/-- The export spec for module `invoice`, model `Invoice` (Scenario C). -/
def esInv : ModelExportSpec := ⟨"invoice", "Invoice"⟩

/-- C8: for a module whose (sole relevant) manifest holds the element
list `cur`, the rebuilt manifest's element sequence is: the sentinel
`Base` prepended when absent, then the pre-existing elements in their
original order, then the model name appended when absent; and it is
re-emitted one single-quoted element per line, each comma-terminated,
with the closing bracket alone on its line. -/
theorem C8_manifest_rebuild (es : ModelExportSpec) (q rest : List Node) (a : Node)
    (cur : List String)
    (hseen : exportSeenImport es (q ++ a :: rest) = true)
    (hq : ∀ x ∈ q, isAllLine x = false)
    (ha : isAllLine a = true) (hext : nodeExtract a = cur)
    (hrest : nodesDeepAny isAllLine rest = false) :
    exportTransform es (q ++ a :: rest)
      = stripTrailingEmpty q
        ++ Node.emptyLine :: buildAllStmt (addModel es (addBase cur)) :: rest ∧
    addModel es (addBase cur)
      = (if "Base" ∈ cur then cur else "Base" :: cur)
        ++ (if es.model_name ∈ (if "Base" ∈ cur then cur else "Base" :: cur) then []
            else [es.model_name]) ∧
    renderNode "" (buildAllStmt (addModel es (addBase cur)))
      = "__all__ = [\n"
        ++ String.join ((addModel es (addBase cur)).map
            (fun n => "    " ++ quoteStr false n ++ ",\n"))
        ++ "]\n" := by
  have h1 : addBase cur = if "Base" ∈ cur then cur else "Base" :: cur := by
    simp [addBase]
  have h2 : ∀ l, addModel es l = if es.model_name ∈ l then l else l ++ [es.model_name] := by
    intro l
    simp [addModel]
  have hcomp : addModel es (addBase cur)
      = (if "Base" ∈ cur then cur else "Base" :: cur)
        ++ (if es.model_name ∈ (if "Base" ∈ cur then cur else "Base" :: cur) then []
            else [es.model_name]) := by
    rw [h2, h1]
    by_cases hm : es.model_name ∈ (if "Base" ∈ cur then cur else "Base" :: cur)
    · rw [if_pos hm, if_pos hm, List.append_nil]
    · rw [if_neg hm, if_neg hm]
  have hBmem : "Base" ∈ addBase cur := by
    by_cases h : "Base" ∈ cur <;> simp [addBase, h]
  have hne : addModel es (addBase cur) ≠ [] := by
    intro hnil
    by_cases h : es.model_name ∈ addBase cur
    · rw [show addModel es (addBase cur) = addBase cur from by simp [addModel, h]] at hnil
      rw [hnil] at hBmem
      cases hBmem
    · rw [show addModel es (addBase cur) = addBase cur ++ [es.model_name] from by
        simp [addModel, h]] at hnil
      simp at hnil
  have hlast : nodesLastAll [] (q ++ a :: rest) = cur := by
    rw [nodesLastAll_append]
    rw [show nodesLastAll (nodesLastAll [] q) (a :: rest)
        = nodesLastAll (nodeLastAll (nodesLastAll [] q) a) rest from rfl]
    rw [nodeLastAll_of_allLine a ha, hext]
    exact nodesLastAll_of_free cur rest hrest
  have hT : exportTransform es (q ++ a :: rest)
      = exportBodyTransform (addModel es (addBase []))
          (addModel es (addBase (nodesLastAll [] (q ++ a :: rest)))) (q ++ a :: rest) := by
    unfold exportTransform
    rw [if_pos hseen]
  refine ⟨?_, hcomp, render_buildAllStmt _ hne⟩
  rw [hT, hlast]
  exact exportBody_shape _ _ q rest a hq ha

/-- C8 witness: Scenario C — `__all__ = ["Base", "Order"]` on one line
plus model `Invoice` rebuilds to `Base`, `Order`, `Invoice` in that
order, one per line. -/
theorem C8_witness :
    exportTransform esInv ([exportImportStmt esInv]
        ++ (Node.stmtLine [Small.assign [Target.name "__all__"]
            (AValue.coll false "" [Elem.str false "Base" ", ",
              Elem.str false "Order" ""])] none) :: [])
      = stripTrailingEmpty [exportImportStmt esInv]
        ++ Node.emptyLine
          :: buildAllStmt (addModel esInv (addBase ["Base", "Order"])) :: [] ∧
    addModel esInv (addBase ["Base", "Order"])
      = (if "Base" ∈ ["Base", "Order"] then ["Base", "Order"]
         else "Base" :: ["Base", "Order"])
        ++ (if esInv.model_name ∈ (if "Base" ∈ ["Base", "Order"] then ["Base", "Order"]
              else "Base" :: ["Base", "Order"]) then []
            else [esInv.model_name]) ∧
    renderNode "" (buildAllStmt (addModel esInv (addBase ["Base", "Order"])))
      = "__all__ = [\n"
        ++ String.join ((addModel esInv (addBase ["Base", "Order"])).map
            (fun n => "    " ++ quoteStr false n ++ ",\n"))
        ++ "]\n" :=
  C8_manifest_rebuild esInv [exportImportStmt esInv] []
    (Node.stmtLine [Small.assign [Target.name "__all__"]
      (AValue.coll false "" [Elem.str false "Base" ", ", Elem.str false "Order" ""])] none)
    ["Base", "Order"] rfl (by decide) rfl rfl rfl

/-! ## Claim C9 — alias-insensitive deps import detection -/

/-- C9: the dependency-provider mutator's import detection ignores the
alias entirely: any module containing a `from <module> import <name>`
under any alias is treated as having the import, and the transform
performs no import insertion (its body is passed through to the
function-append step unchanged) — while the router mutator's detector
accepts only an absent alias or the derived one. -/
theorem C9_deps_alias_insensitive (ds : DepsSpec) (rs : RouterSpec)
    (a b : Option String) (t : List Node)
    (ht : (Node.stmtLine [Small.importFrom ds.import_module
      [(ds.import_name, a)]] none) ∈ t) :
    depsSeenImport ds t = true ∧
    depsTransform ds t
      = (if depsSeenFunc ds t then t
         else t ++ List.replicate (2 - trailingBlanks t) Node.emptyLine
            ++ [depsFuncStmt ds]) ∧
    routerSeenImport rs
        [Node.stmtLine [Small.importFrom rs.import_module [(rs.import_name, b)]] none]
      = (b == none || b == some rs.aliasName) := by
  have hseen : depsSeenImport ds t = true := by
    refine nodesDeepAny_of_mem ht ?_
    rw [nodeDeepAny_stmtLine]
    simp [depsImportHere]
  refine ⟨hseen, ?_, ?_⟩
  · unfold depsTransform
    rw [if_pos hseen]
  · show nodesDeepAny (routerImportHere rs) _ = _
    rw [nodesDeepAny_singleton, nodeDeepAny_stmtLine]
    simp [routerImportHere]

/-- C9 witness: a concrete foreign alias is accepted by the deps
detector but rejected by the router detector. -/
theorem C9_witness :
    depsSeenImport ds0 [Node.stmtLine [Small.importFrom ds0.import_module
        [(ds0.import_name, some "weird")]] none] = true ∧
    depsTransform ds0 [Node.stmtLine [Small.importFrom ds0.import_module
        [(ds0.import_name, some "weird")]] none]
      = (if depsSeenFunc ds0 [Node.stmtLine [Small.importFrom ds0.import_module
            [(ds0.import_name, some "weird")]] none]
         then [Node.stmtLine [Small.importFrom ds0.import_module
            [(ds0.import_name, some "weird")]] none]
         else [Node.stmtLine [Small.importFrom ds0.import_module
            [(ds0.import_name, some "weird")]] none]
          ++ List.replicate (2 - trailingBlanks [Node.stmtLine
              [Small.importFrom ds0.import_module
                [(ds0.import_name, some "weird")]] none]) Node.emptyLine
          ++ [depsFuncStmt ds0]) ∧
    routerSeenImport rs0
        [Node.stmtLine [Small.importFrom rs0.import_module
          [(rs0.import_name, some "weird")]] none]
      = ((some "weird" : Option String) == none
          || (some "weird" : Option String) == some rs0.aliasName) :=
  C9_deps_alias_insensitive ds0 rs0 (some "weird") (some "weird") _
    (List.mem_singleton.mpr rfl)

/-! ## Claim C10 — detectors match at any nesting depth -/

/-- C10: (a) a function definition carrying the derived provider name
nested inside a class body is detected, and the transform skips the
function append (only the import handling remains); (b) the derived
module import nested inside a function body is detected, and the
transform performs no import insertion. -/
theorem C10_deep_detection (ds : DepsSpec) (pre post inner1 inner2 : List Node)
    (cname csig fsig fname gsig : String) :
    depsSeenFunc ds (pre ++ Node.classDef cname csig
        (inner1 ++ [Node.funcDef ds.func_name fsig inner2]) :: post) = true ∧
    depsTransform ds (pre ++ Node.classDef cname csig
        (inner1 ++ [Node.funcDef ds.func_name fsig inner2]) :: post)
      = (if depsSeenImport ds (pre ++ Node.classDef cname csig
            (inner1 ++ [Node.funcDef ds.func_name fsig inner2]) :: post)
         then pre ++ Node.classDef cname csig
            (inner1 ++ [Node.funcDef ds.func_name fsig inner2]) :: post
         else insertAfterLastImport (depsImportStmt ds)
            (pre ++ Node.classDef cname csig
              (inner1 ++ [Node.funcDef ds.func_name fsig inner2]) :: post)) ∧
    depsSeenImport ds (pre ++ Node.funcDef fname gsig
        (inner1 ++ [Node.stmtLine [Small.importFrom ds.import_module
          [(ds.import_name, none)]] none]) :: post) = true := by
  have hmem1 : Node.classDef cname csig (inner1 ++ [Node.funcDef ds.func_name fsig inner2])
      ∈ pre ++ Node.classDef cname csig
        (inner1 ++ [Node.funcDef ds.func_name fsig inner2]) :: post :=
    List.mem_append.mpr (Or.inr (List.mem_cons_self _ _))
  have hfn : depsSeenFunc ds (pre ++ Node.classDef cname csig
      (inner1 ++ [Node.funcDef ds.func_name fsig inner2]) :: post) = true := by
    refine nodesDeepAny_of_mem hmem1 ?_
    rw [nodeDeepAny_classDef, nodesDeepAny_append, nodesDeepAny_singleton,
      nodeDeepAny_funcDef]
    simp [depsFuncHere]
  have hmem2 : Node.funcDef fname gsig
      (inner1 ++ [Node.stmtLine [Small.importFrom ds.import_module
        [(ds.import_name, none)]] none])
      ∈ pre ++ Node.funcDef fname gsig
        (inner1 ++ [Node.stmtLine [Small.importFrom ds.import_module
          [(ds.import_name, none)]] none]) :: post :=
    List.mem_append.mpr (Or.inr (List.mem_cons_self _ _))
  refine ⟨hfn, ?_, ?_⟩
  · unfold depsTransform
    rw [if_pos hfn]
  · refine nodesDeepAny_of_mem hmem2 ?_
    rw [nodeDeepAny_funcDef, nodesDeepAny_append, nodesDeepAny_singleton,
      nodeDeepAny_stmtLine]
    simp [depsImportHere]

/-- C10 witness: the deep-detection consequences at concrete inputs. -/
theorem C10_witness :
    depsSeenFunc ds0 ([] ++ Node.classDef "C" "" ([]
        ++ [Node.funcDef ds0.func_name "()" []]) :: []) = true ∧
    depsTransform ds0 ([] ++ Node.classDef "C" "" ([]
        ++ [Node.funcDef ds0.func_name "()" []]) :: [])
      = (if depsSeenImport ds0 ([] ++ Node.classDef "C" "" ([]
            ++ [Node.funcDef ds0.func_name "()" []]) :: [])
         then [] ++ Node.classDef "C" "" ([]
            ++ [Node.funcDef ds0.func_name "()" []]) :: []
         else insertAfterLastImport (depsImportStmt ds0)
            ([] ++ Node.classDef "C" "" ([]
              ++ [Node.funcDef ds0.func_name "()" []]) :: [])) ∧
    depsSeenImport ds0 ([] ++ Node.funcDef "g" "()" ([]
        ++ [Node.stmtLine [Small.importFrom ds0.import_module
          [(ds0.import_name, none)]] none]) :: []) = true :=
  C10_deep_detection ds0 [] [] [] [] "C" "" "()" "g" "()"

end Codemod
